import Mathlib

/-!
Verification development for the Square ↔ BGG image sync service.

Strings from the TypeScript source are modelled as `List Char`; JavaScript
`toLowerCase` is modelled by mapping `Char.toLower`, `String.prototype.includes`
by substring containment, and the regular-expression replacements of
`findBestMatch` by direct executable matchers with the same leftmost /
greedy-whitespace / lazy-dot semantics.  Network effects (fetch, the BGG
search and thing endpoints, the UPC lookup service) are modelled as explicit
oracle functions passed to the embedded code.  JavaScript truthiness tests on
strings and numbers (`if (x)`) are modelled as `≠ ""` / `≠ 0` where the source
performs them.
-/

namespace SquareBgg

/-- The JS whitespace characters relevant here (model of regex `\s` and
`String.prototype.trim`). -/
def isWsChar (c : Char) : Bool :=
  c = ' ' || c = '\t' || c = '\n' || c = '\r' || c = '\x0b' || c = '\x0c'

/-- Model of `toLowerCase`. -/
def lowerList (s : List Char) : List Char := s.map Char.toLower

/-- Model of `String.prototype.includes`: `hay` contains `need` as a
contiguous substring. -/
def containsSub (hay need : List Char) : Bool :=
  match hay with
  | [] => need.isEmpty
  | _ :: t => need.isPrefixOf hay || containsSub t need

/-- Drop leading JS whitespace. -/
def dropWs (s : List Char) : List Char := s.dropWhile isWsChar

/-- Model of `String.prototype.trim`. -/
def jsTrim (s : List Char) : List Char :=
  ((s.dropWhile isWsChar).reverse.dropWhile isWsChar).reverse

/-- Case-insensitive literal match at the head of `s`: if the first
`lit.length` characters of `s` lower-case to `lit`, return the rest. -/
def lowerMatch (lit : List Char) (s : List Char) : Option (List Char) :=
  match lit, s with
  | [], rest => some rest
  | _ :: _, [] => none
  | l :: lt, c :: ct => if c.toLower = l then lowerMatch lt ct else none

/-- The literal `"board game"` as lower-case characters. -/
def boardGameLit : List Char := "board game".data

/-- Scan for the first `)` in the lazy-dot part of regex
`\(.*?\)`: `.` does not match line terminators, so a newline before the
first `)` makes the match fail.  Returns the characters after the `)`. -/
def scanToClose : List Char → Option (List Char)
  | [] => none
  | c :: t =>
    if c = ')' then some t
    else if c = '\n' || c = '\r' then none
    else scanToClose t

/-- Try to match regex `\s*\(.*?\)\s*` starting exactly at the head of `s`
(the greedy `\s*` cannot backtrack usefully because `(` is not whitespace).
On success returns the characters after the match. -/
def matchParenAt (s : List Char) : Option (List Char) :=
  match dropWs s with
  | '(' :: t =>
    match scanToClose t with
    | some rest => some (dropWs rest)
    | none => none
  | _ => none

/-- Worker for the global parenthetical replacement.  The fuel argument is a
termination device only: the caller supplies `s.length`, which always
suffices because every match consumes at least two characters (the `(` and
the `)`), so the `0, s => s` branch is never reached from `replaceParens`
(see `replaceParensGo_congr`). -/
def replaceParensGo : Nat → List Char → List Char
  | _, [] => []
  | 0, s => s
  | fuel + 1, c :: t =>
    match matchParenAt (c :: t) with
    | some rest => ' ' :: replaceParensGo fuel rest
    | none => c :: replaceParensGo fuel t

/-- Model of `.replace(/\s*\(.*?\)\s*/g, " ")`: leftmost matches, each
replaced by a single space, scanning resumes after each match. -/
def replaceParens (s : List Char) : List Char := replaceParensGo s.length s

/-- Try to match regex `\s*-\s*board game\s*` (case-insensitive) at the head
of `s`; on success returns the characters after the match. -/
def matchDashBgAt (s : List Char) : Option (List Char) :=
  match dropWs s with
  | '-' :: t =>
    match lowerMatch boardGameLit (dropWs t) with
    | some rest => some (dropWs rest)
    | none => none
  | _ => none

/-- Model of the non-global `.replace(/\s*-\s*board game\s*/i, "")`:
only the first match is removed. -/
def replaceDashBg : List Char → List Char
  | [] => []
  | c :: t =>
    match matchDashBgAt (c :: t) with
    | some rest => rest
    | none => c :: replaceDashBg t

/-- Try to match regex `\s*board game\s*` (case-insensitive) at the head of
`s`; on success returns the characters after the match. -/
def matchBgAt (s : List Char) : Option (List Char) :=
  match lowerMatch boardGameLit (dropWs s) with
  | some rest => some (dropWs rest)
  | none => none

/-- Model of the non-global `.replace(/\s*board game\s*/i, "")`:
only the first match is removed. -/
def replaceBg : List Char → List Char
  | [] => []
  | c :: t =>
    match matchBgAt (c :: t) with
    | some rest => rest
    | none => c :: replaceBg t

/-- The UPC-title cleaning pipeline of `findBestMatch` (src/lib/bgg.ts):
remove parenthetical text globally, remove the first `"- board game"`,
remove the first `"board game"`, then trim. -/
def cleanTitle (s : List Char) : List Char :=
  jsTrim (replaceBg (replaceDashBg (replaceParens s)))

/-! ## UPC lookup (src/lib/upc.ts) -/

/-- One entry of the `items` array in a UPCitemdb response; every field is
optional (`item.title ?? ""`, `item.brand ?? null`, …). -/
structure UpcItem where
  title : Option (List Char)
  brand : Option (List Char)
  description : Option (List Char)
deriving DecidableEq, Repr

/-- The parsed `data.items` value: absent / not an array, or an array. -/
inductive UpcItems where
  | missing
  | arr (l : List UpcItem)
deriving DecidableEq, Repr

/-- The observable outcome of the single `fetch` + `res.json()` of
`lookupUpc`: a thrown network error, or a response with a status and a
body that either fails to parse (`res.json()` throws) or parses. -/
inductive UpcHttp where
  | fetchThrow
  | resp (status : Nat) (body : Option UpcItems)
deriving DecidableEq, Repr

/-- The result record of `lookupUpc` (`UpcLookupResult`). -/
structure UpcLookupResult where
  title : List Char
  brand : Option (List Char)
  description : Option (List Char)
deriving DecidableEq, Repr

/-- JS `Response.ok`: status in 200–299. -/
def respOk (status : Nat) : Bool := 200 ≤ status && status ≤ 299

/-- `lookupUpc` (src/lib/upc.ts): the whole body runs inside `try`/`catch`
with the catch returning `null`, so a thrown fetch or parse maps to `none`;
a non-2xx response, a missing `items` array and an empty `items` array all
map to `none`; otherwise the first item is returned with `?? ""` / `?? null`
defaults. -/
def lookupUpc (env : List Char → UpcHttp) (upc : List Char) :
    Option UpcLookupResult :=
  match env (jsTrim upc) with
  | .fetchThrow => none
  | .resp status body =>
    if !respOk status then none
    else
      match body with
      | none => none
      | some .missing => none
      | some (.arr []) => none
      | some (.arr (item :: _)) =>
        some ⟨item.title.getD [], item.brand, item.description⟩

/-! ## BGG client data model (src/lib/bgg.ts) -/

/-- A lightweight BGG search result (`BggSearchResult`). -/
structure BggSearchResult where
  bggId : Nat
  name : List Char
  yearPublished : Option Int
deriving DecidableEq, Repr

/-- Full detail of a BGG thing (`BggThingDetail`). -/
structure BggThingDetail where
  bggId : Nat
  name : List Char
  yearPublished : Option Int
  imageUrl : Option (List Char)
  thumbnailUrl : Option (List Char)
  publishers : List (List Char)
deriving DecidableEq, Repr

/-- The optional matching hints passed to `findBestMatch` /
`searchAndScore` (`{ year?, publisher?, upc? }`). -/
structure MatchHints where
  year : Option Int := none
  publisher : Option (List Char) := none
  upc : Option (List Char) := none
deriving DecidableEq, Repr

/-- JS truthiness of an optional number (`hints?.year &&` …): an absent
value and the number `0` are falsy. -/
def numTruthy : Option Int → Bool
  | none => false
  | some y => y != 0

/-- JS truthiness of an optional string: an absent value and the empty
string are falsy. -/
def strTruthy : Option (List Char) → Bool
  | none => false
  | some s => !s.isEmpty

/-- The name-similarity part of the score in `searchAndScore`:
+10 for a case-insensitive exact match with the query, else +5 when the
candidate name case-insensitively contains the query. -/
def nameScore (query : List Char) (r : BggSearchResult) : Int :=
  if lowerList r.name = lowerList query then 10
  else if containsSub (lowerList r.name) (lowerList query) then 5
  else 0

/-- The year part of the score in `searchAndScore`:
`if (hints?.year && r.yearPublished === hints.year) score += 8`. -/
def yearBonus (hints : MatchHints) (r : BggSearchResult) : Int :=
  if numTruthy hints.year && r.yearPublished == hints.year then 8 else 0

/-- A search result together with its computed score (`Scored`). -/
structure ScoredResult extends BggSearchResult where
  score : Int
deriving DecidableEq, Repr

/-- Scoring of one candidate in `searchAndScore`. -/
def scoreResult (query : List Char) (hints : MatchHints) (r : BggSearchResult) :
    ScoredResult :=
  { r with score := nameScore query r + yearBonus hints r }

/-- The sort comparator of `searchAndScore`
(`(a, b) => b.score - a.score || a.bggId - b.bggId` used with a stable
sort): `a` may come before `b` iff `a` has the larger score, or the scores
tie and `a` has the smaller or equal bggId. -/
def scoredLe (a b : ScoredResult) : Bool :=
  b.score < a.score || (a.score == b.score && a.bggId ≤ b.bggId)

/-- The scored-and-sorted candidate list built by `searchAndScore` from the
raw search results. -/
def scoreAndSort (query : List Char) (hints : MatchHints)
    (results : List BggSearchResult) : List ScoredResult :=
  (results.map (scoreResult query hints)).mergeSort scoredLe

/-- The publisher verification of the first candidate pass:
skipped entirely when the publisher hint is absent or empty (JS truthiness),
otherwise some publisher of the detail must case-insensitively contain the
hint as a substring. -/
def publisherOk (hints : MatchHints) (d : BggThingDetail) : Bool :=
  if strTruthy hints.publisher then
    match hints.publisher with
    | some p => d.publishers.any fun q => containsSub (lowerList q) (lowerList p)
    | none => true
  else true

/-- JS truthiness of `detail.imageUrl`. -/
def imgTruthy (d : BggThingDetail) : Bool := strTruthy d.imageUrl

/-- The environment of network oracles used by the match engine:
`searchOf` models `searchBgg`, `detailOf` models `fetchBggThing`, and
`upcOf` models `lookupUpc`. -/
structure MatchEnv where
  searchOf : List Char → List BggSearchResult
  detailOf : Nat → Option BggThingDetail
  upcOf : List Char → Option UpcLookupResult

/-- First candidate pass of `searchAndScore` over the top three scored
candidates: fetch the detail, skip when absent or without a truthy image,
skip on publisher mismatch when a publisher hint is present. -/
def firstPass (detailOf : Nat → Option BggThingDetail) (hints : MatchHints) :
    List ScoredResult → Option BggThingDetail
  | [] => none
  | c :: rest =>
    match detailOf c.bggId with
    | none => firstPass detailOf hints rest
    | some d =>
      if !imgTruthy d then firstPass detailOf hints rest
      else if publisherOk hints d then some d
      else firstPass detailOf hints rest

/-- Fallback pass of `searchAndScore` (`scored.slice(0, 5)` in the code):
return the first candidate whose detail exists and has a truthy image,
with no publisher check. -/
def fallbackPass (detailOf : Nat → Option BggThingDetail) :
    List ScoredResult → Option BggThingDetail
  | [] => none
  | c :: rest =>
    match detailOf c.bggId with
    | none => fallbackPass detailOf rest
    | some d => if imgTruthy d then some d else fallbackPass detailOf rest

/-- What one fallback iteration yields for a single candidate. -/
def fallbackHit (detailOf : Nat → Option BggThingDetail) (c : ScoredResult) :
    Option BggThingDetail :=
  match detailOf c.bggId with
  | none => none
  | some d => if imgTruthy d then some d else none

/-- `searchAndScore` (src/lib/bgg.ts): search, score, sort, then the
top-three verified pass followed by the top-five image-only fallback. -/
def searchAndScore (env : MatchEnv) (searchName : List Char)
    (hints : MatchHints) : Option BggThingDetail :=
  let results := env.searchOf searchName
  if results.isEmpty then none
  else
    let scored := scoreAndSort searchName hints results
    match firstPass env.detailOf hints (scored.take 3) with
    | some d => some d
    | none => fallbackPass env.detailOf (scored.take 5)

/-- The search name chosen by `findBestMatch`: when a truthy UPC hint is
present and the UPC lookup returns a truthy title, the cleaned UPC title
(with no emptiness check); otherwise the product name. -/
def chooseSearchName (env : MatchEnv) (productName : List Char)
    (hints : MatchHints) : List Char :=
  match hints.upc with
  | none => productName
  | some u =>
    if u.isEmpty then productName
    else
      match env.upcOf u with
      | none => productName
      | some r =>
        if r.title.isEmpty then productName else cleanTitle r.title

/-- `findBestMatch` (src/lib/bgg.ts): search with the chosen name, and when
that yields no match and the chosen name differs from the product name,
retry with the product name. -/
def findBestMatch (env : MatchEnv) (productName : List Char)
    (hints : MatchHints) : Option BggThingDetail :=
  let searchName := chooseSearchName env productName hints
  match searchAndScore env searchName hints with
  | some d => some d
  | none =>
    if searchName ≠ productName then searchAndScore env productName hints
    else none

/-! ## Rate-limited fetch with backoff (src/lib/bgg.ts, fetchWithBackoff) -/

/-- An HTTP response as seen by `fetchWithBackoff`: status plus body text. -/
structure BggResp where
  status : Nat
  body : List Char
deriving DecidableEq, Repr

/-- The outcome of `fetchWithBackoff`: a body on success, or one of the two
thrown errors (the auth error for 401/403, the generic request failure
otherwise). -/
inductive FetchOutcome where
  | ok (body : List Char)
  | authError (status : Nat)
  | requestFailed (status : Nat)
deriving DecidableEq, Repr

/-- The observable behaviour of one `fetchWithBackoff` invocation: its
outcome, the total number of HTTP calls issued, and the list of backoff
delays slept between calls (the unconditional 800–1200ms courtesy delay
before every call is not tracked here). -/
structure FetchResult where
  outcome : FetchOutcome
  calls : Nat
  delays : List Nat
deriving DecidableEq, Repr

/-- `MAX_RETRIES` from src/lib/bgg.ts. -/
def maxRetries : Nat := 6

/-- `BASE_DELAY_MS` from src/lib/bgg.ts. -/
def baseDelayMs : Nat := 2000

/-- Worker for `fetchWithBackoff`.  `resp i` is the response to the call
made with `attempt = i` (calls and attempts are in bijection), `jitter i`
models `Math.random() * 1_000` in the backoff delay of attempt `i`.  The
fuel argument only bounds the recursion: retries happen solely while
`attempt < maxRetries`, so a fuel of `maxRetries` is never exhausted and
the `0` branch is unreachable. -/
def fetchGo (resp : Nat → BggResp) (jitter : Nat → Nat) :
    Nat → Nat → FetchResult
  | fuel, attempt =>
    let r := resp attempt
    if respOk r.status then ⟨.ok r.body, 1, []⟩
    else if (r.status == 429 || decide (500 ≤ r.status))
        && decide (attempt < maxRetries) then
      match fuel with
      | fuel2 + 1 =>
        let delay := baseDelayMs * 2 ^ attempt + jitter attempt
        let next := fetchGo resp jitter fuel2 (attempt + 1)
        ⟨next.outcome, next.calls + 1, delay :: next.delays⟩
      | 0 => ⟨.requestFailed r.status, 1, []⟩
    else if r.status == 401 || r.status == 403 then
      ⟨.authError r.status, 1, []⟩
    else ⟨.requestFailed r.status, 1, []⟩

/-- `fetchWithBackoff(url, attempt)` (src/lib/bgg.ts): courtesy delay, one
fetch, then on 429/5xx with `attempt < MAX_RETRIES` an exponential-backoff
retry with jitter; 401/403 throw the auth error without any retry; other
failures throw the generic error. -/
def fetchWithBackoff (resp : Nat → BggResp) (jitter : Nat → Nat)
    (attempt : Nat) : FetchResult :=
  fetchGo resp jitter maxRetries attempt

/-! ## Square catalog model (src/lib/square.ts) -/

/-- The optional metadata of a catalog item (`SquareCatalogItem.meta`). -/
structure ItemMeta where
  year : Option Int := none
  publisher : Option (List Char) := none
  upc : Option (List Char) := none
deriving DecidableEq, Repr

/-- `SquareCatalogItem` from src/lib/square.ts. -/
structure SquareCatalogItem where
  objectId : List Char
  name : List Char
  hasImage : Bool
  hasDescription : Bool
  meta : ItemMeta
  categoryIds : List (List Char)
deriving DecidableEq, Repr

/-- The hints the sync workers pass to `findBestMatch` for an item:
`{ year: item.meta.year, publisher: item.meta.publisher, upc: item.meta.upc }`. -/
def hintsOfItem (i : SquareCatalogItem) : MatchHints :=
  ⟨i.meta.year, i.meta.publisher, i.meta.upc⟩

/-- The raw `itemData` of a Square catalog object, restricted to the fields
`listCatalogItems` reads.  `variations` holds each variation suffix
`itemVariationData?.upc`; `categories` holds each entry suffix `c.id`. -/
structure SqItemData where
  name : Option (List Char)
  categoryId : Option (List Char)
  categories : List (Option (List Char))
  variations : List (Option (List Char))
  imageIds : List (List Char)
  descriptionHtml : Option (List Char)
  description : Option (List Char)
deriving DecidableEq, Repr

/-- A raw Square catalog object: its id and optional `itemData`. -/
structure SqCatalogObject where
  id : List Char
  itemData : Option SqItemData
deriving DecidableEq, Repr

/-- The UPC extraction loop of `listCatalogItems`: the first truthy `upc`
among the variations. -/
def extractUpc : List (Option (List Char)) → Option (List Char)
  | [] => none
  | v :: rest =>
    match v with
    | some u => if u.isEmpty then extractUpc rest else some u
    | none => extractUpc rest

/-- The category-id collection of `listCatalogItems`: the truthy
`itemData.categoryId` followed by the truthy ids of `itemData.categories`. -/
def catIdsOf (d : SqItemData) : List (List Char) :=
  (match d.categoryId with
   | some cid => if cid.isEmpty then [] else [cid]
   | none => []) ++
  d.categories.filterMap fun c =>
    match c with
    | some s => if s.isEmpty then none else some s
    | none => none

/-- `listCatalogItems` (src/lib/square.ts), as a pure function of the
discovered game-category ids and the paginated catalog objects: keep only
objects with `itemData` in a game category, extract the first variation
UPC, and flag image/description presence.  `meta` is built as `{ upc }`
only. -/
def listCatalogItems (gameCats : List (List Char))
    (objs : List SqCatalogObject) : List SquareCatalogItem :=
  if gameCats.isEmpty then []
  else
    objs.filterMap fun obj =>
      match obj.itemData with
      | none => none
      | some idata =>
        let catIds := catIdsOf idata
        if catIds.any (fun cid => gameCats.contains cid) then
          let upc := extractUpc idata.variations
          let hasImage := decide (0 < idata.imageIds.length)
          let descr := idata.descriptionHtml.getD (idata.description.getD [])
          let hasDescr := decide (0 < (jsTrim descr).length)
          some ⟨obj.id, idata.name.getD [], hasImage, hasDescr,
            ⟨none, none, upc⟩, catIds⟩
        else none

/-! ## Job orchestration (src/inngest/functions/sync-images.ts) -/

/-- The run-level filter shared by the dispatcher and the legacy loop:
drop items that already have an image unless `force`, then apply the
optional case-insensitive name substring filter (JS truthiness: an empty
`filterName` disables the filter). -/
def dispatchFilter (allItems : List SquareCatalogItem) (force : Bool)
    (filterName : Option (List Char)) : List SquareCatalogItem :=
  let items := if force then allItems else allItems.filter fun i => !i.hasImage
  if strTruthy filterName then
    match filterName with
    | some f => items.filter fun i => containsSub (lowerList i.name) (lowerList f)
    | none => items
  else items

/-- `BATCH_SIZE` of the fan-out dispatcher. -/
def batchSize : Nat := 100

/-- The dispatcher batching loop: `items.slice(i, i + BATCH_SIZE)` for
`i = 0, 100, 200, …`. -/
def toBatches : List SquareCatalogItem → List (List SquareCatalogItem)
  | [] => []
  | c :: t => ((c :: t).take batchSize) :: toBatches ((c :: t).drop batchSize)
termination_by l => l.length
decreasing_by simp [batchSize]; omega

/-! ## Legacy single-loop run with the 401 circuit breaker (sync-images.ts,
legacy variant) -/

/-- Per-item outcome statuses. -/
inductive SyncStatus where
  | synced
  | noMatch
  | error
deriving DecidableEq, Repr

/-- A per-item `SyncOutcome`; `is401` models the `_is401` flag attached to
error outcomes whose message indicates a 401. -/
structure SyncOutcome where
  objectId : List Char
  name : List Char
  status : SyncStatus
  is401 : Bool
deriving DecidableEq, Repr

/-- `MAX_401_ERRORS` of the legacy `syncImages`. -/
def max401Errors : Nat := 10

/-- The legacy per-item loop: before each item the circuit breaker checks
the cumulative 401 count and breaks at the threshold; after each processed
item the count is incremented when the outcome carries the 401 flag.
`proc` is the oracle giving the outcome of processing one item (the whole
per-item body runs in a try/catch and always yields an outcome). -/
def runItemsGo (proc : SquareCatalogItem → SyncOutcome) :
    List SquareCatalogItem → Nat → List SyncOutcome × Nat
  | [], count => ([], count)
  | i :: rest, count =>
    if max401Errors ≤ count then ([], count)
    else
      let r := proc i
      let count2 := if r.is401 then count + 1 else count
      let next := runItemsGo proc rest count2
      (r :: next.1, next.2)

/-- The aggregate result of a legacy run. -/
structure LegacyRunResult where
  results : List SyncOutcome
  aborted : Bool
  authErrorCount : Nat
deriving DecidableEq, Repr

/-- The legacy `syncImages` run over the already-filtered item list:
process items under the circuit breaker and report
`aborted = authErrorCount >= MAX_401_ERRORS`. -/
def legacyRun (proc : SquareCatalogItem → SyncOutcome)
    (items : List SquareCatalogItem) : LegacyRunResult :=
  let p := runItemsGo proc items 0
  ⟨p.1, decide (max401Errors ≤ p.2), p.2⟩

/-- Number of 401-flagged outcomes in a list. -/
def count401 (l : List SyncOutcome) : Nat := (l.filter fun o => o.is401).length

/-- Length of the shortest prefix containing `k` 401-flagged outcomes
(specification-side helper for the circuit-breaker claim). -/
def firstReach (k : Nat) : List SyncOutcome → Nat
  | [] => 0
  | r :: t =>
    if r.is401 then (if k ≤ 1 then 1 else 1 + firstReach (k - 1) t)
    else 1 + firstReach k t

/-! ## Specification-side definitions

These restate parts of the specification in the claims' own words, for
comparison with the code-side definitions above. -/

/-- The score formula of claim C1 as stated: the year bonus applies
whenever the year hint is present and equals the candidate year. -/
def specScoreClaimC1 (query : List Char) (hints : MatchHints)
    (r : BggSearchResult) : Int :=
  (if lowerList r.name = lowerList query then 10
   else if containsSub (lowerList r.name) (lowerList query) then 5
   else 0) +
  (match hints.year with
   | some y => if r.yearPublished = some y then 8 else 0
   | none => 0)

/-- The amended C1 score formula: the year bonus applies only when the
year hint is present with a nonzero value (JS truthiness of
`hints?.year`). -/
def specScoreAmendedC1 (query : List Char) (hints : MatchHints)
    (r : BggSearchResult) : Int :=
  (if lowerList r.name = lowerList query then 10
   else if containsSub (lowerList r.name) (lowerList query) then 5
   else 0) +
  (match hints.year with
   | some y => if y ≠ 0 ∧ r.yearPublished = some y then 8 else 0
   | none => 0)

/-- `searchAndScore` as claim C2 describes it: the fallback pass iterates
only the candidates ranked 4th and 5th. -/
def searchAndScoreSpecC2 (env : MatchEnv) (searchName : List Char)
    (hints : MatchHints) : Option BggThingDetail :=
  let results := env.searchOf searchName
  if results.isEmpty then none
  else
    let scored := scoreAndSort searchName hints results
    match firstPass env.detailOf hints (scored.take 3) with
    | some d => some d
    | none => fallbackPass env.detailOf ((scored.drop 3).take 2)

/-- The search-name choice as claim C8 describes it: when cleaning the
resolved UPC title yields an empty string, fall back to the product name. -/
def chooseSearchNameSpecC8 (env : MatchEnv) (productName : List Char)
    (hints : MatchHints) : List Char :=
  match hints.upc with
  | none => productName
  | some u =>
    if u.isEmpty then productName
    else
      match env.upcOf u with
      | none => productName
      | some r =>
        if r.title.isEmpty then productName
        else if (cleanTitle r.title).isEmpty then productName
        else cleanTitle r.title

/-- `findBestMatch` as claim C8 describes it. -/
def findBestMatchSpecC8 (env : MatchEnv) (productName : List Char)
    (hints : MatchHints) : Option BggThingDetail :=
  let searchName := chooseSearchNameSpecC8 env productName hints
  match searchAndScore env searchName hints with
  | some d => some d
  | none =>
    if searchName ≠ productName then searchAndScore env productName hints
    else none

/-- Executable check that a title is already clean: no suffix of it matches
any of the three strip patterns of `cleanTitle`. -/
def noStripLeft : List Char → Bool
  | [] => true
  | c :: t =>
    (matchParenAt (c :: t)).isNone && (matchDashBgAt (c :: t)).isNone
      && (matchBgAt (c :: t)).isNone && noStripLeft t

/-! ## Concrete data used in counterexamples and witnesses -/

/-- Query string for the C1 counterexample. -/
def qx : List Char := "x".data

/-- A candidate published in year 0. -/
def rYear0 : BggSearchResult := ⟨1, qx, some 0⟩

/-- Hints carrying the year hint `0`. -/
def hYear0 : MatchHints := ⟨some 0, none, none⟩

def qC2 : List Char := "catan".data

def pubHintC2 : List Char := "days of wonder".data

/-- Hints with a publisher hint that the detail below does not satisfy. -/
def hC2 : MatchHints := ⟨none, some pubHintC2, none⟩

def candC2 : BggSearchResult := ⟨7, qC2, some 1995⟩

def urlC2 : List Char := "img7".data

def kosmosC2 : List Char := "kosmos".data

/-- Detail of the single C2 candidate: has an image, wrong publisher. -/
def detC2 : BggThingDetail := ⟨7, qC2, some 1995, some urlC2, none, [kosmosC2]⟩

/-- A search environment with exactly one candidate whose detail has an
image but whose publisher does not match the hint. -/
def envC2 : MatchEnv :=
  ⟨fun q => if q = qC2 then [candC2] else [],
   fun i => if i = 7 then some detC2 else none,
   fun _ => none⟩

/-- A metadata service that always answers 429. -/
def resp429 : Nat → BggResp := fun _ => ⟨429, []⟩

/-- A metadata service that always answers 401. -/
def resp401 : Nat → BggResp := fun _ => ⟨401, []⟩

/-- Zero jitter. -/
def zeroJitter : Nat → Nat := fun _ => 0

def itemA : SquareCatalogItem :=
  ⟨"itm".data, "A".data, false, false, ⟨none, none, none⟩, []⟩

/-- An error outcome flagged as a 401. -/
def out401 : SyncOutcome := ⟨"itm".data, "A".data, .error, true⟩

/-- A worker oracle that fails every item with a 401. -/
def proc401 : SquareCatalogItem → SyncOutcome := fun _ => out401

def items12 : List SquareCatalogItem := List.replicate 12 itemA

/-- An item that already has both an image and a description. -/
def itemDone : SquareCatalogItem :=
  ⟨"done".data, "Catan".data, true, true, ⟨none, none, none⟩, []⟩

def upcTitleW : List Char := "Catan Board Game".data

def upcBrandW : List Char := "KOSMOS".data

def upcItemW : UpcItem := ⟨some upcTitleW, some upcBrandW, none⟩

/-- A UPC service that always answers 200 with one item. -/
def envC7 : List Char → UpcHttp := fun _ => .resp 200 (some (.arr [upcItemW]))

def upcW : List Char := "4002051694776".data

def upcC8 : List Char := "850".data

def pnC8 : List Char := "Catan".data

/-- A resolved UPC title that cleans to the empty string. -/
def bgTitle : List Char := "board game".data

def hC8 : MatchHints := ⟨none, none, some upcC8⟩

/-- A candidate whose (primary) name is the empty string. -/
def candEmpty : BggSearchResult := ⟨3, [], none⟩

def urlC8 : List Char := "img3".data

def detEmpty : BggThingDetail := ⟨3, [], none, some urlC8, none, []⟩

/-- An environment where the UPC resolves to a title cleaning to `""`,
searching `""` finds a match with an image, and searching the product name
finds nothing. -/
def envC8 : MatchEnv :=
  ⟨fun q => if q = ([] : List Char) then [candEmpty] else [],
   fun i => if i = 3 then some detEmpty else none,
   fun u => if u = upcC8 then some ⟨bgTitle, none, none⟩ else none⟩

/-- The C9 counterexample input: two occurrences of the stripped phrase. -/
def bgbg : List Char := "board game board game".data

def gameCatW : List Char := "cat-games".data

def sqDataW : SqItemData :=
  ⟨some pnC8, some gameCatW, [], [some upcW], [], none, none⟩

def sqObjW : SqCatalogObject := ⟨"obj1".data, some sqDataW⟩

/-- The catalog item `listCatalogItems` produces from `sqObjW`. -/
def itemW : SquareCatalogItem :=
  ⟨"obj1".data, pnC8, false, false, ⟨none, none, some upcW⟩, [gameCatW]⟩



/-! # Theorems -/

/-! ## Backoff fetch lemmas -/

theorem fetchGo_zero (resp : Nat → BggResp) (jitter : Nat → Nat) (attempt : Nat) :
    fetchGo resp jitter 0 attempt =
      (let r := resp attempt
       if respOk r.status then ⟨.ok r.body, 1, []⟩
       else if (r.status == 429 || decide (500 ≤ r.status))
           && decide (attempt < maxRetries) then ⟨.requestFailed r.status, 1, []⟩
       else if r.status == 401 || r.status == 403 then ⟨.authError r.status, 1, []⟩
       else ⟨.requestFailed r.status, 1, []⟩) := rfl

theorem fetchGo_succ (resp : Nat → BggResp) (jitter : Nat → Nat)
    (fuel attempt : Nat) :
    fetchGo resp jitter (fuel + 1) attempt =
      (let r := resp attempt
       if respOk r.status then ⟨.ok r.body, 1, []⟩
       else if (r.status == 429 || decide (500 ≤ r.status))
           && decide (attempt < maxRetries) then
         let next := fetchGo resp jitter fuel (attempt + 1)
         ⟨next.outcome, next.calls + 1,
           (baseDelayMs * 2 ^ attempt + jitter attempt) :: next.delays⟩
       else if r.status == 401 || r.status == 403 then ⟨.authError r.status, 1, []⟩
       else ⟨.requestFailed r.status, 1, []⟩) := rfl

theorem fetchGo_calls_pos (resp : Nat → BggResp) (jitter : Nat → Nat)
    (fuel attempt : Nat) : 1 ≤ (fetchGo resp jitter fuel attempt).calls := by
  cases fuel with
  | zero =>
    simp only [fetchGo_zero]
    split
    · simp
    · split
      · simp
      · split <;> simp
  | succ fuel2 =>
    simp only [fetchGo_succ]
    split
    · simp
    · split
      · simp
      · split <;> simp

theorem fetchGo_calls_le (resp : Nat → BggResp) (jitter : Nat → Nat) :
    ∀ (fuel attempt : Nat), (fetchGo resp jitter fuel attempt).calls ≤ fuel + 1 := by
  intro fuel
  induction fuel with
  | zero =>
    intro attempt
    simp only [fetchGo_zero]
    split
    · simp
    · split
      · simp
      · split <;> simp
  | succ fuel2 ih =>
    intro attempt
    simp only [fetchGo_succ]
    split
    · simp
    · split
      · have := ih (attempt + 1); simp only []; omega
      · split <;> simp

theorem fetchGo_delays (resp : Nat → BggResp) (jitter : Nat → Nat) :
    ∀ (fuel attempt : Nat),
      (fetchGo resp jitter fuel attempt).delays =
        (List.range' attempt ((fetchGo resp jitter fuel attempt).calls - 1)).map
          (fun i => baseDelayMs * 2 ^ i + jitter i) := by
  intro fuel
  induction fuel with
  | zero =>
    intro attempt
    simp only [fetchGo_zero]
    split
    · simp
    · split
      · simp
      · split <;> simp
  | succ fuel2 ih =>
    intro attempt
    simp only [fetchGo_succ]
    split
    · simp
    · split
      · have hpos := fetchGo_calls_pos resp jitter fuel2 (attempt + 1)
        cases hc : (fetchGo resp jitter fuel2 (attempt + 1)).calls with
        | zero => omega
        | succ k =>
          have hd := ih (attempt + 1)
          rw [hc] at hd
          simp only [Nat.add_sub_cancel] at hd ⊢
          rw [List.range'_succ, List.map_cons, hd]
      · split <;> simp

theorem fetchGo_persistent429 (resp : Nat → BggResp) (jitter : Nat → Nat)
    (h : ∀ i, (resp i).status = 429) :
    ∀ (fuel attempt : Nat),
      (fetchGo resp jitter fuel attempt).outcome = .requestFailed 429 ∧
      (fetchGo resp jitter fuel attempt).calls =
        min fuel (maxRetries - attempt) + 1 := by
  intro fuel
  induction fuel with
  | zero =>
    intro attempt
    simp only [fetchGo_zero, h]
    split
    next hok => simp [respOk] at hok
    · split
      · exact ⟨rfl, by simp⟩
      · split
        next hauth => simp at hauth
        · exact ⟨rfl, by simp⟩
  | succ fuel2 ih =>
    intro attempt
    simp only [fetchGo_succ, h]
    split
    next hok => simp [respOk] at hok
    · split
      next hretry =>
        have hnext := ih (attempt + 1)
        refine ⟨hnext.1, ?_⟩
        simp only [hnext.2]
        have ha : attempt < maxRetries := by
          simp at hretry
          omega
        simp [maxRetries] at ha ⊢
        omega
      next hretry =>
        have ha : ¬ attempt < maxRetries := by
          intro hlt
          apply hretry
          simp [maxRetries] at hlt ⊢
          omega
        split
        next hauth => simp at hauth
        · refine ⟨rfl, ?_⟩
          simp [maxRetries] at ha ⊢
          omega

/-! ## Claims C3 and C6: fetchWithBackoff -/

/-- Claim C3 (amended): for every search/detail operation, `fetchWithBackoff`
issues at most 7 HTTP calls in total (the initial call plus up to
`MAX_RETRIES = 6` retries); each backoff delay slept before retry `i + 1` is
`2000ms * 2 ^ i + jitter i` with `jitter` modelling `Math.random() * 1000`;
and under persistently failing (429) responses it stops retrying at the
attempt ceiling and fails with an error after exactly 7 calls. -/
theorem fetchWithBackoff_retry_bound (resp : Nat → BggResp) (jitter : Nat → Nat) :
    (fetchWithBackoff resp jitter 0).calls ≤ 7 ∧
    (fetchWithBackoff resp jitter 0).delays =
      (List.range ((fetchWithBackoff resp jitter 0).calls - 1)).map
        (fun i => baseDelayMs * 2 ^ i + jitter i) ∧
    ((∀ i, (resp i).status = 429) →
      (fetchWithBackoff resp jitter 0).outcome = .requestFailed 429 ∧
      (fetchWithBackoff resp jitter 0).calls = 7) := by
  refine ⟨?_, ?_, ?_⟩
  · have h := fetchGo_calls_le resp jitter maxRetries 0
    simpa [fetchWithBackoff, maxRetries] using h
  · rw [List.range_eq_range']
    exact fetchGo_delays resp jitter maxRetries 0
  · intro h
    have hp := fetchGo_persistent429 resp jitter h maxRetries 0
    refine ⟨hp.1, ?_⟩
    have h2 := hp.2
    simpa [maxRetries] using h2

/-- Claim C3 counterexample: with every response a 429, `fetchWithBackoff`
makes 7 HTTP calls in total, refuting the claimed bound of 6. -/
theorem fetchWithBackoff_seven_calls_cex :
    (fetchWithBackoff resp429 zeroJitter 0).calls = 7 ∧
    ¬ (fetchWithBackoff resp429 zeroJitter 0).calls ≤ 6 := by decide

/-- Witness for the C3 theorem at a concrete always-429 service. -/
theorem fetchWithBackoff_retry_bound_witness :
    (fetchWithBackoff resp429 zeroJitter 0).calls ≤ 7 ∧
    (fetchWithBackoff resp429 zeroJitter 0).outcome = .requestFailed 429 :=
  ⟨(fetchWithBackoff_retry_bound resp429 zeroJitter).1,
   ((fetchWithBackoff_retry_bound resp429 zeroJitter).2.2 (fun _ => rfl)).1⟩

/-- Claim C6: a request answered 401 or 403 fails immediately with the auth
error after exactly one HTTP call and no backoff sleeps, whereas a request
answered 429 or 5xx is retried (at least a second call is made). -/
theorem fetchWithBackoff_auth_no_retry (resp : Nat → BggResp) (jitter : Nat → Nat) :
    (((resp 0).status = 401 ∨ (resp 0).status = 403) →
      fetchWithBackoff resp jitter 0 = ⟨.authError (resp 0).status, 1, []⟩) ∧
    (((resp 0).status = 429 ∨ 500 ≤ (resp 0).status) →
      2 ≤ (fetchWithBackoff resp jitter 0).calls) := by
  have e : fetchWithBackoff resp jitter 0 = fetchGo resp jitter (5 + 1) 0 := rfl
  constructor
  · intro h
    rw [e, fetchGo_succ]
    rcases h with h | h <;> simp [respOk, h, maxRetries]
  · intro h
    rw [e, fetchGo_succ]
    have hok : respOk (resp 0).status = false := by
      rcases h with h | h <;> simp [respOk, h] <;> omega
    have hretry : (((resp 0).status == 429 || decide (500 ≤ (resp 0).status))
        && decide ((0 : Nat) < maxRetries)) = true := by
      rcases h with h | h <;> simp [h, maxRetries]
    have hpos := fetchGo_calls_pos resp jitter 5 1
    simp [hok, hretry]
    omega

/-- Witness for the C6 theorem: a 401 service fails immediately with one
call; a 429 service is retried. -/
theorem fetchWithBackoff_auth_no_retry_witness :
    fetchWithBackoff resp401 zeroJitter 0 = ⟨.authError 401, 1, []⟩ ∧
    2 ≤ (fetchWithBackoff resp429 zeroJitter 0).calls :=
  ⟨(fetchWithBackoff_auth_no_retry resp401 zeroJitter).1 (Or.inl rfl),
   (fetchWithBackoff_auth_no_retry resp429 zeroJitter).2 (Or.inl rfl)⟩

/-! ## Claim C4: the 401 circuit breaker of the legacy loop -/

theorem count401_cons (o : SyncOutcome) (l : List SyncOutcome) :
    count401 (o :: l) = (if o.is401 then 1 else 0) + count401 l := by
  simp only [count401, List.filter]
  split <;> simp_all +arith

theorem runItemsGo_stop (proc : SquareCatalogItem → SyncOutcome)
    (l : List SquareCatalogItem) (c : Nat) (hc : max401Errors ≤ c) :
    runItemsGo proc l c = ([], c) := by
  cases l with
  | nil => rfl
  | cons i rest => simp [runItemsGo, hc]

theorem runItemsGo_under (proc : SquareCatalogItem → SyncOutcome) :
    ∀ (l : List SquareCatalogItem) (c : Nat),
      c + count401 (l.map proc) ≤ 9 →
      runItemsGo proc l c = (l.map proc, c + count401 (l.map proc)) := by
  intro l
  induction l with
  | nil => intro c hc; simp [runItemsGo, count401]
  | cons i rest ih =>
    intro c hc
    rw [List.map_cons, count401_cons] at hc ⊢
    have hlt : ¬ max401Errors ≤ c := by simp only [max401Errors]; omega
    simp only [runItemsGo, if_neg hlt]
    cases h4 : (proc i).is401 with
    | false =>
      rw [h4] at hc
      simp only [Bool.false_eq_true, if_false] at hc ⊢
      rw [ih c (by omega)]
      simp +arith
    | true =>
      rw [h4] at hc
      simp only [if_true] at hc ⊢
      rw [ih (c + 1) (by omega)]
      simp +arith

theorem runItemsGo_reach (proc : SquareCatalogItem → SyncOutcome) :
    ∀ (l : List SquareCatalogItem) (c : Nat),
      c < max401Errors → max401Errors ≤ c + count401 (l.map proc) →
      runItemsGo proc l c =
        ((l.map proc).take (firstReach (max401Errors - c) (l.map proc)),
          max401Errors) := by
  intro l
  induction l with
  | nil =>
    intro c hc hr
    simp only [List.map_nil, count401, List.filter_nil, List.length_nil] at hr
    omega
  | cons i rest ih =>
    intro c hc hr
    rw [List.map_cons, count401_cons] at hr
    have hlt : ¬ max401Errors ≤ c := by omega
    simp only [runItemsGo, if_neg hlt, List.map_cons, firstReach]
    cases h4 : (proc i).is401 with
    | false =>
      rw [h4] at hr
      simp only [Bool.false_eq_true, if_false] at hr ⊢
      rw [ih c hc (by omega)]
      simp only []
      rw [Nat.add_comm 1 _, List.take_succ_cons]
    | true =>
      rw [h4] at hr
      simp only [if_true] at hr ⊢
      by_cases h9 : c + 1 = max401Errors
      · have hk : max401Errors - c ≤ 1 := by omega
        rw [runItemsGo_stop proc rest (c + 1) (by omega)]
        simp [hk, h9]
      · have hc2 : c + 1 < max401Errors := by omega
        rw [ih (c + 1) hc2 (by omega)]
        have hk : ¬ max401Errors - c ≤ 1 := by omega
        have hk2 : max401Errors - c - 1 = max401Errors - (c + 1) := by omega
        simp only [if_neg hk, hk2]
        rw [Nat.add_comm 1 _, List.take_succ_cons]

/-- Claim C4: in the legacy single-loop run, once the cumulative count of
401 outcomes reaches 10 (`MAX_401_ERRORS`), no further item is processed —
the results are exactly the prefix of per-item outcomes up to and including
the one carrying the 10th 401 — and the run reports `aborted = true`; a run
whose items would produce at most 9 such outcomes processes every item and
reports `aborted = false`. -/
theorem legacyRun_circuit_breaker (proc : SquareCatalogItem → SyncOutcome)
    (items : List SquareCatalogItem) :
    (max401Errors ≤ count401 (items.map proc) →
      (legacyRun proc items).results =
        (items.map proc).take (firstReach max401Errors (items.map proc)) ∧
      (legacyRun proc items).aborted = true) ∧
    (count401 (items.map proc) ≤ 9 →
      (legacyRun proc items).results = items.map proc ∧
      (legacyRun proc items).aborted = false) := by
  constructor
  · intro h
    have hz : (0 : Nat) < max401Errors := by simp [max401Errors]
    have hrun := runItemsGo_reach proc items 0 hz (by omega)
    simp only [Nat.sub_zero] at hrun
    simp [legacyRun, hrun]
  · intro h
    have hrun := runItemsGo_under proc items 0 (by omega)
    simp only [Nat.zero_add] at hrun
    constructor
    · simp [legacyRun, hrun]
    · simp only [legacyRun, hrun]
      simp only [decide_eq_false_iff_not, max401Errors]
      omega

/-- Witness for the C4 theorem: twelve items all failing with 401 halt the
run at the tenth outcome with `aborted = true`. -/
theorem legacyRun_circuit_breaker_witness :
    (legacyRun proc401 items12).results =
      (items12.map proc401).take (firstReach max401Errors (items12.map proc401)) ∧
    (legacyRun proc401 items12).aborted = true :=
  (legacyRun_circuit_breaker proc401 items12).1 (by decide)

/-! ## Claim C5: completed items are filtered out before dispatch -/

theorem toBatches_flatten : ∀ (l : List SquareCatalogItem), (toBatches l).flatten = l
  | [] => by rw [toBatches]; rfl
  | c :: t => by
    rw [toBatches, List.flatten_cons, toBatches_flatten ((c :: t).drop batchSize),
      List.take_append_drop]
termination_by l => l.length
decreasing_by simp [batchSize]; omega

theorem dispatchFilter_subset (allItems : List SquareCatalogItem)
    (filterName : Option (List Char)) :
    ∀ i ∈ dispatchFilter allItems false filterName,
      i ∈ allItems.filter fun j => !j.hasImage := by
  intro i hi
  unfold dispatchFilter at hi
  simp only [Bool.false_eq_true, if_false] at hi
  split at hi
  · split at hi
    · exact List.mem_of_mem_filter hi
    · exact hi
  · exact hi

/-- Claim C5: an item that already has both an image and a description is
removed by the non-forced run filter, so it is dispatched in no batch and
no outcome is produced for it. -/
theorem dispatch_skips_completed (allItems : List SquareCatalogItem)
    (filterName : Option (List Char)) (i : SquareCatalogItem)
    (himg : i.hasImage = true) (hdesc : i.hasDescription = true) :
    i ∉ dispatchFilter allItems false filterName ∧
    ∀ b ∈ toBatches (dispatchFilter allItems false filterName), i ∉ b := by
  have key : i ∉ dispatchFilter allItems false filterName := by
    intro hmem
    have h2 := dispatchFilter_subset allItems filterName i hmem
    rw [List.mem_filter] at h2
    simp [himg] at h2
  refine ⟨key, ?_⟩
  intro b hb hib
  apply key
  have hj : i ∈ (toBatches (dispatchFilter allItems false filterName)).flatten :=
    List.mem_flatten.mpr ⟨b, hb, hib⟩
  rwa [toBatches_flatten] at hj

/-- Witness for the C5 theorem at a concrete completed item. -/
theorem dispatch_skips_completed_witness :
    itemDone ∉ dispatchFilter [itemDone] false none ∧
    ∀ b ∈ toBatches (dispatchFilter [itemDone] false none), itemDone ∉ b :=
  dispatch_skips_completed [itemDone] none itemDone rfl rfl

/-! ## Claim C7: lookupUpc is total and null on every failure -/

/-- Claim C7: `lookupUpc` never throws — it is a total function into an
option — returning `none` on a thrown fetch, a non-2xx status, an unparsable
body, a missing items array and an empty items array, and returning the
`{title, brand, description}` record of the first item on success. -/
theorem lookupUpc_never_throws (env : List Char → UpcHttp) (upc : List Char) :
    (env (jsTrim upc) = .fetchThrow → lookupUpc env upc = none) ∧
    (∀ s b, env (jsTrim upc) = .resp s b → respOk s = false →
      lookupUpc env upc = none) ∧
    (∀ s, env (jsTrim upc) = .resp s none → lookupUpc env upc = none) ∧
    (∀ s, env (jsTrim upc) = .resp s (some .missing) → lookupUpc env upc = none) ∧
    (∀ s, env (jsTrim upc) = .resp s (some (.arr [])) → lookupUpc env upc = none) ∧
    (∀ s item rest, env (jsTrim upc) = .resp s (some (.arr (item :: rest))) →
      respOk s = true →
      lookupUpc env upc = some ⟨item.title.getD [], item.brand, item.description⟩) := by
  refine ⟨?_, ?_, ?_, ?_, ?_, ?_⟩
  · intro h; simp [lookupUpc, h]
  · intro s b h hok; simp [lookupUpc, h, hok]
  · intro s h; simp [lookupUpc, h]
  · intro s h; simp [lookupUpc, h]
  · intro s h; simp [lookupUpc, h]
  · intro s item rest h hok; simp [lookupUpc, h, hok]

/-- Witness for the C7 theorem at a concrete successful lookup. -/
theorem lookupUpc_never_throws_witness :
    lookupUpc envC7 upcW =
      some ⟨upcItemW.title.getD [], upcItemW.brand, upcItemW.description⟩ :=
  (lookupUpc_never_throws envC7 upcW).2.2.2.2.2 200 upcItemW [] rfl rfl

/-! ## Claim C10: listCatalogItems never sets year or publisher metadata -/

/-- Claim C10: every item produced by `listCatalogItems` has `meta.year`
and `meta.publisher` absent (only `meta.upc` may be set), so for items
flowing through the pipeline the +8 year bonus of `searchAndScore` is
always 0 and the publisher verification always passes. -/
theorem listCatalogItems_meta_upc_only (gameCats : List (List Char))
    (objs : List SqCatalogObject) (i : SquareCatalogItem)
    (hi : i ∈ listCatalogItems gameCats objs) :
    i.meta.year = none ∧ i.meta.publisher = none ∧
    (∀ r, yearBonus (hintsOfItem i) r = 0) ∧
    (∀ d, publisherOk (hintsOfItem i) d = true) := by
  have hmeta : i.meta.year = none ∧ i.meta.publisher = none := by
    unfold listCatalogItems at hi
    split at hi
    · simp at hi
    · rw [List.mem_filterMap] at hi
      obtain ⟨obj, hobj, heq⟩ := hi
      cases hdata : obj.itemData with
      | none => rw [hdata] at heq; simp at heq
      | some idata =>
        rw [hdata] at heq
        simp only [] at heq
        split at heq
        · rw [Option.some_inj] at heq
          rw [← heq]
          exact ⟨rfl, rfl⟩
        · simp at heq
  refine ⟨hmeta.1, hmeta.2, ?_, ?_⟩
  · intro r
    simp [yearBonus, hintsOfItem, hmeta.1, numTruthy]
  · intro d
    simp [publisherOk, hintsOfItem, hmeta.2, strTruthy]

/-- Witness for the C10 theorem at a concrete catalog object. -/
theorem listCatalogItems_meta_upc_only_witness :
    itemW.meta.year = none ∧ itemW.meta.publisher = none ∧
    (∀ r, yearBonus (hintsOfItem itemW) r = 0) ∧
    (∀ d, publisherOk (hintsOfItem itemW) d = true) :=
  listCatalogItems_meta_upc_only [gameCatW] [sqObjW] itemW (by decide)

/-! ## Claim C1: scoring and ordering of searchAndScore -/

theorem scoredLe_trans (a b c : ScoredResult)
    (hab : scoredLe a b = true) (hbc : scoredLe b c = true) :
    scoredLe a c = true := by
  simp only [scoredLe, Bool.or_eq_true, Bool.and_eq_true, decide_eq_true_eq,
    beq_iff_eq] at hab hbc ⊢
  rcases hab with h1 | ⟨h1, h2⟩ <;> rcases hbc with h3 | ⟨h3, h4⟩
  · exact Or.inl (by omega)
  · exact Or.inl (by omega)
  · exact Or.inl (by omega)
  · exact Or.inr ⟨by omega, by omega⟩

theorem scoredLe_total (a b : ScoredResult) :
    (scoredLe a b || scoredLe b a) = true := by
  simp only [scoredLe, Bool.or_eq_true, Bool.and_eq_true, decide_eq_true_eq,
    beq_iff_eq]
  omega

theorem scoreResult_eq_amended (query : List Char) (hints : MatchHints)
    (r : BggSearchResult) :
    (scoreResult query hints r).score = specScoreAmendedC1 query hints r := by
  simp only [scoreResult, nameScore, yearBonus, specScoreAmendedC1, numTruthy]
  cases hy : hints.year with
  | none => simp
  | some y =>
    by_cases h0 : y = 0
    · simp [h0]
    · by_cases hp : r.yearPublished = some y
      · simp [h0, hp]
      · simp [h0, hp]

/-- Claim C1 (amended): `searchAndScore` assigns each candidate the score
10 / 5 / 0 by case-insensitive name equality / containment with the query,
plus 8 exactly when the year hint is present with a nonzero value (JS
truthiness) and equals the candidate's published year; and it orders the
scored candidates descending by score with ties broken by ascending bggId
— the sorted list is a permutation of the scored candidates and is
pairwise ordered by that relation. -/
theorem searchAndScore_scores_and_orders (results : List BggSearchResult)
    (query : List Char) (hints : MatchHints) :
    (scoreAndSort query hints results).Perm
      (results.map (scoreResult query hints)) ∧
    (∀ sc ∈ scoreAndSort query hints results,
      sc.score = specScoreAmendedC1 query hints sc.toBggSearchResult) ∧
    (scoreAndSort query hints results).Pairwise
      (fun a b => b.score < a.score ∨ (a.score = b.score ∧ a.bggId ≤ b.bggId)) := by
  refine ⟨List.mergeSort_perm _ _, ?_, ?_⟩
  · intro sc hsc
    have hmem : sc ∈ results.map (scoreResult query hints) :=
      (List.mergeSort_perm (results.map (scoreResult query hints)) scoredLe).subset hsc
    obtain ⟨r, hr, hrfl⟩ := List.mem_map.mp hmem
    rw [← hrfl]
    exact scoreResult_eq_amended query hints r
  · have hs := @List.sorted_mergeSort ScoredResult scoredLe
      (fun a b c => scoredLe_trans a b c)
      (fun a b => scoredLe_total a b)
      (results.map (scoreResult query hints))
    refine hs.imp ?_
    intro a b hab
    simpa only [scoredLe, Bool.or_eq_true, Bool.and_eq_true, decide_eq_true_eq,
      beq_iff_eq] using hab

/-- Claim C1 counterexample: a candidate published in year 0 with year hint
0 receives score 10 from the code (`0` is falsy, so no year bonus), whereas
the claimed formula assigns 18. -/
theorem searchAndScore_year_zero_cex :
    (scoreResult qx hYear0 rYear0).score = 10 ∧
    specScoreClaimC1 qx hYear0 rYear0 = 18 ∧
    (scoreResult qx hYear0 rYear0).score ≠ specScoreClaimC1 qx hYear0 rYear0 := by
  decide

/-- Witness for the C1 theorem at a concrete singleton candidate list. -/
theorem searchAndScore_scores_and_orders_witness :
    (scoreAndSort qx hYear0 [rYear0]).Perm
      ([rYear0].map (scoreResult qx hYear0)) ∧
    ((scoreResult qx hYear0 rYear0).score =
      specScoreAmendedC1 qx hYear0 (scoreResult qx hYear0 rYear0).toBggSearchResult) :=
  ⟨(searchAndScore_scores_and_orders [rYear0] qx hYear0).1,
   (searchAndScore_scores_and_orders [rYear0] qx hYear0).2.1
     (scoreResult qx hYear0 rYear0)
     (by simp [scoreAndSort])⟩

/-! ## Claim C2: the fallback pass of searchAndScore -/

theorem fallbackPass_eq_findSome (detailOf : Nat → Option BggThingDetail) :
    ∀ (l : List ScoredResult),
      fallbackPass detailOf l = l.findSome? (fallbackHit detailOf) := by
  intro l
  induction l with
  | nil => rfl
  | cons c rest ih =>
    simp only [fallbackPass, List.findSome?_cons, fallbackHit]
    cases hd : detailOf c.bggId with
    | none => simpa using ih
    | some d =>
      by_cases himg : imgTruthy d
      · simp [himg]
      · simp [himg, ih]

theorem scoreAndSort_singleton (query : List Char) (hints : MatchHints)
    (r : BggSearchResult) :
    scoreAndSort query hints [r] = [scoreResult query hints r] := by
  simp [scoreAndSort]

/-- Claim C2 (amended): when the search is nonempty and none of the top 3
scored candidates passes the detail/image/publisher checks, the fallback
pass iterates the top 5 candidates — ranks 1 through 5, re-examining the
first three — requires only an image (no publisher check), and
`searchAndScore` returns the first such candidate's detail, or null when
none of the top 5 qualifies. -/
theorem searchAndScore_fallback_top5 (env : MatchEnv) (searchName : List Char)
    (hints : MatchHints)
    (hne : env.searchOf searchName ≠ [])
    (hfp : firstPass env.detailOf hints
        ((scoreAndSort searchName hints (env.searchOf searchName)).take 3) = none) :
    searchAndScore env searchName hints =
      ((scoreAndSort searchName hints (env.searchOf searchName)).take 5).findSome?
        (fallbackHit env.detailOf) := by
  unfold searchAndScore
  rw [if_neg (by simpa using hne)]
  show (match firstPass env.detailOf hints
      ((scoreAndSort searchName hints (env.searchOf searchName)).take 3) with
    | some d => some d
    | none => fallbackPass env.detailOf
        ((scoreAndSort searchName hints (env.searchOf searchName)).take 5)) = _
  rw [hfp]
  exact fallbackPass_eq_findSome env.detailOf _

/-- Claim C2 counterexample: with a single candidate whose detail has an
image but fails the publisher hint, the top-3 pass rejects it, yet the
code's fallback (`scored.slice(0, 5)`) re-examines rank 1 and returns its
detail, while the claimed 4th–5th-only fallback would return null. -/
theorem searchAndScore_fallback_rescan_cex :
    searchAndScore envC2 qC2 hC2 = some detC2 ∧
    searchAndScoreSpecC2 envC2 qC2 hC2 = none := by
  have hsearch : envC2.searchOf qC2 = [candC2] := rfl
  have hsort : scoreAndSort qC2 hC2 [candC2] = [scoreResult qC2 hC2 candC2] :=
    scoreAndSort_singleton qC2 hC2 candC2
  constructor
  · simp only [searchAndScore, hsearch, hsort]
    decide
  · simp only [searchAndScoreSpecC2, hsearch, hsort]
    decide

/-- Witness for the C2 theorem at the concrete one-candidate environment. -/
theorem searchAndScore_fallback_top5_witness :
    searchAndScore envC2 qC2 hC2 =
      ((scoreAndSort qC2 hC2 (envC2.searchOf qC2)).take 5).findSome?
        (fallbackHit envC2.detailOf) :=
  searchAndScore_fallback_top5 envC2 qC2 hC2 (by decide)
    (by
      have hsearch : envC2.searchOf qC2 = [candC2] := rfl
      rw [hsearch, scoreAndSort_singleton]
      decide)

/-! ## Claim C8: empty cleaned UPC title in findBestMatch -/

/-- Claim C8 (amended): when the UPC lookup returns a truthy title whose
cleaning yields the empty string, `findBestMatch` does not substitute the
product name up front — it searches with the empty cleaned string first,
and only falls back to a search with the product name when that first
search yields no match (the empty search name differs from any nonempty
product name). -/
theorem findBestMatch_empty_clean_title (env : MatchEnv) (pn : List Char)
    (hints : MatchHints) (u : List Char) (r : UpcLookupResult)
    (hu : hints.upc = some u) (hune : u.isEmpty = false)
    (hr : env.upcOf u = some r) (ht : r.title.isEmpty = false)
    (hclean : cleanTitle r.title = []) :
    chooseSearchName env pn hints = [] ∧
    findBestMatch env pn hints =
      (match searchAndScore env [] hints with
       | some d => some d
       | none => if pn = [] then none else searchAndScore env pn hints) := by
  have hcsn : chooseSearchName env pn hints = [] := by
    simp [chooseSearchName, hu, hune, hr, ht, hclean]
  refine ⟨hcsn, ?_⟩
  simp only [findBestMatch, hcsn]
  cases hs : searchAndScore env [] hints with
  | some d => rfl
  | none =>
    by_cases hpn : pn = []
    · simp [hpn]
    · simp [hpn, eq_comm]

/-- Claim C8 counterexample: the UPC title `"board game"` cleans to `""`;
the code searches with `""` first and returns that search's match, even
though searching the product name `"Catan"` would find nothing — refuting
the claim that the search name falls back to the product name instead of
searching with the empty cleaned string. -/
theorem findBestMatch_empty_clean_title_cex :
    findBestMatch envC8 pnC8 hC8 = some detEmpty ∧
    findBestMatchSpecC8 envC8 pnC8 hC8 = none := by
  have hcsn : chooseSearchName envC8 pnC8 hC8 = [] := by decide
  have hsearchE : envC8.searchOf [] = [candEmpty] := rfl
  have hsAS : searchAndScore envC8 [] hC8 = some detEmpty := by
    simp only [searchAndScore, hsearchE, scoreAndSort_singleton]
    decide
  have hspec : chooseSearchNameSpecC8 envC8 pnC8 hC8 = pnC8 := by decide
  have hsASpn : searchAndScore envC8 pnC8 hC8 = none := by decide
  constructor
  · simp only [findBestMatch, hcsn, hsAS]
  · simp only [findBestMatchSpecC8, hspec, hsASpn]
    simp

/-- Witness for the C8 theorem at the concrete environment. -/
theorem findBestMatch_empty_clean_title_witness :
    chooseSearchName envC8 pnC8 hC8 = [] ∧
    findBestMatch envC8 pnC8 hC8 =
      (match searchAndScore envC8 [] hC8 with
       | some d => some d
       | none => if pnC8 = [] then none else searchAndScore envC8 pnC8 hC8) :=
  findBestMatch_empty_clean_title envC8 pnC8 hC8 upcC8 ⟨bgTitle, none, none⟩
    rfl rfl (by decide) rfl (by decide)

/-! ## Claim C9: idempotence of the UPC title cleaning -/

theorem dropWhile_idem (p : Char → Bool) (l : List Char) :
    List.dropWhile p (List.dropWhile p l) = List.dropWhile p l := by
  induction l with
  | nil => rfl
  | cons c t ih =>
    by_cases h : p c
    · simp [List.dropWhile_cons, h, ih]
    · simp [List.dropWhile_cons, h]

theorem dropWhile_eq_self_of_prefix (p : Char → Bool) {w y : List Char}
    (hw : List.dropWhile p w = w) (hpre : y <+: w) :
    List.dropWhile p y = y := by
  cases y with
  | nil => rfl
  | cons c t =>
    cases w with
    | nil => simp at hpre
    | cons d u =>
      rw [List.cons_prefix_cons] at hpre
      obtain ⟨hcd, -⟩ := hpre
      have hd : p d = false := by
        by_contra hpd
        rw [Bool.not_eq_false] at hpd
        rw [List.dropWhile_cons, if_pos hpd] at hw
        have hlen := congrArg List.length hw
        have hle := (List.dropWhile_sublist (l := u) p).length_le
        simp at hlen
        omega
      subst hcd
      rw [List.dropWhile_cons, if_neg (by simp [hd])]

theorem jsTrim_idem (s : List Char) : jsTrim (jsTrim s) = jsTrim s := by
  unfold jsTrim
  set a := List.dropWhile isWsChar s with ha
  set y := (a.reverse.dropWhile isWsChar).reverse with hy
  have hyd : List.dropWhile isWsChar y = y := by
    apply dropWhile_eq_self_of_prefix isWsChar (w := a)
    · rw [ha]; exact dropWhile_idem isWsChar s
    · rw [hy]
      have hsuf : a.reverse.dropWhile isWsChar <:+ a.reverse :=
        List.dropWhile_suffix _
      have hpre := List.reverse_prefix.mpr hsuf
      rwa [List.reverse_reverse] at hpre
  rw [hyd, hy, List.reverse_reverse, dropWhile_idem]

theorem noStripLeft_cons (c : Char) (t : List Char)
    (h : noStripLeft (c :: t) = true) :
    matchParenAt (c :: t) = none ∧ matchDashBgAt (c :: t) = none ∧
    matchBgAt (c :: t) = none ∧ noStripLeft t = true := by
  simp only [noStripLeft, Bool.and_eq_true, Option.isNone_iff_eq_none] at h
  exact ⟨h.1.1.1, h.1.1.2, h.1.2, h.2⟩

theorem replaceParensGo_self (t : List Char) (h : noStripLeft t = true) :
    ∀ fuel, replaceParensGo fuel t = t := by
  induction t with
  | nil => intro fuel; cases fuel <;> rfl
  | cons c t2 ih =>
    intro fuel
    obtain ⟨hp, -, -, ht⟩ := noStripLeft_cons c t2 h
    cases fuel with
    | zero => rfl
    | succ f =>
      simp only [replaceParensGo, hp]
      rw [ih ht f]

theorem replaceParens_self (t : List Char) (h : noStripLeft t = true) :
    replaceParens t = t :=
  replaceParensGo_self t h t.length

theorem replaceDashBg_self (t : List Char) (h : noStripLeft t = true) :
    replaceDashBg t = t := by
  induction t with
  | nil => rfl
  | cons c t2 ih =>
    obtain ⟨-, hd, -, ht⟩ := noStripLeft_cons c t2 h
    simp only [replaceDashBg, hd]
    rw [ih ht]

theorem replaceBg_self (t : List Char) (h : noStripLeft t = true) :
    replaceBg t = t := by
  induction t with
  | nil => rfl
  | cons c t2 ih =>
    obtain ⟨-, -, hb, ht⟩ := noStripLeft_cons c t2 h
    simp only [replaceBg, hb]
    rw [ih ht]

/-- Claim C9 (amended): the UPC title cleaning is idempotent on
already-clean titles — whenever one application's output has nothing left
to strip (no suffix matches the parenthetical, `"- board game"` or
`"board game"` patterns), a second application returns it unchanged.  It is
not idempotent on arbitrary strings, because the two `"board game"`
replacements are non-global (see the counterexample). -/
theorem cleanTitle_idem_on_clean (s : List Char)
    (h : noStripLeft (cleanTitle s) = true) :
    cleanTitle (cleanTitle s) = cleanTitle s := by
  have h1 : replaceParens (cleanTitle s) = cleanTitle s := replaceParens_self _ h
  have h2 : replaceDashBg (cleanTitle s) = cleanTitle s := replaceDashBg_self _ h
  have h3 : replaceBg (cleanTitle s) = cleanTitle s := replaceBg_self _ h
  conv_lhs => rw [show cleanTitle (cleanTitle s) =
    jsTrim (replaceBg (replaceDashBg (replaceParens (cleanTitle s)))) from rfl]
  rw [h1, h2, h3]
  conv_lhs => rw [show cleanTitle s =
    jsTrim (replaceBg (replaceDashBg (replaceParens s))) from rfl]
  rw [jsTrim_idem]
  rfl

/-- Claim C9 counterexample: `"board game board game"` cleans once to
`"board game"` and twice to `""` — the non-global replacements strip one
occurrence per application, so the cleaning is not idempotent on every
input string. -/
theorem cleanTitle_not_idem_cex :
    cleanTitle bgbg = bgTitle ∧
    cleanTitle (cleanTitle bgbg) = [] ∧
    cleanTitle (cleanTitle bgbg) ≠ cleanTitle bgbg := by decide

/-- Witness for the C9 theorem at a concrete clean title. -/
theorem cleanTitle_idem_on_clean_witness :
    cleanTitle (cleanTitle pnC8) = cleanTitle pnC8 :=
  cleanTitle_idem_on_clean pnC8 (by decide)

end SquareBgg
